import Mathlib

/-!
Verification of the deferral-queue core of ae6rt/aftomato against its
specification.  The definitions below are a shallow embedding of
`src/web/deferrals/sqs.go` (the `SQSDeferralService`), of the retry usage in
`src/web/storage/aws.go`, and of the shared `Deferral` data type.  Remote
transports (SQS send/receive/delete, DynamoDB queries) are modelled by
explicit response functions, and each operation additionally returns the
trace of requests it issued, so that ordering and counting claims can be
stated.
-/

namespace Aftomato

/-- The `Deferral` record as used throughout `src/web/deferrals/sqs.go`
(lines 118-123): a pending build trigger with a project key, branch,
build id and creation time in Unix seconds (Go `int64`, modelled as `Int`). -/
structure Deferral where
  ProjectKey : String
  Branch : String
  BuildID : String
  UnixTime : Int
deriving DecidableEq, Repr

/-- Modelled from the spec: the Go file declaring the `Deferral` type and its
`Key()` method is not under `src/` (only its callers are).  Spec section 3:
derived identity `Key() = ProjectKey + "/" + Branch`. -/
def Deferral.Key (d : Deferral) : String :=
  d.ProjectKey ++ "/" ++ d.Branch

/-- `sort.Sort(ByTime msgs))` of `sqs.go` lines 132 and 197, with
`Less(i, j) = s[i].UnixTime < s[j].UnixTime` (lines 259-261): an in-place
comparison sort whose contract is a permutation of the input that is sorted
ascending by `UnixTime`.  It is modelled by `List.insertionSort` on the
non-strict time order; Go's sort is unstable, but every claim below either
uses only sortedness and the permutation property or evaluates the sort at
inputs with pairwise distinct timestamps, where every correct sort agrees. -/
def sortByTime (l : List Deferral) : List Deferral :=
  l.insertionSort (fun a b => a.UnixTime ≤ b.UnixTime)

/-- The loop of `dedup` (`sqs.go` lines 263-274) with the running `last`
key as an explicit argument: an element is appended to the result exactly
when its `Key()` differs from `last`, in which case `last` becomes that key. -/
def dedupFrom (last : String) : List Deferral → List Deferral
  | [] => []
  | v :: rest =>
    if v.Key ≠ last then v :: dedupFrom v.Key rest else dedupFrom last rest

/-- `dedup` (`sqs.go` lines 263-274): the loop starts with `last := ""`. -/
def dedup (a : List Deferral) : List Deferral :=
  dedupFrom "" a

/-- A received SQS message as `Resubmit` and `DeferredBuilds` consume it:
the receipt handle (modelled as an identifier) and the message attributes
`projectkey`, `branch`, `buildid`, together with the result of running
`strconv.ParseInt` on the `unixtime` attribute string — `some t` when the
attribute parses to `t`, `none` when parsing fails (`sqs.go` lines 111-116). -/
structure Message where
  receiptHandle : Nat
  projectkey : String
  branch : String
  buildid : String
  unixtime : Option Int
deriving DecidableEq, Repr

/-- A request issued to the SQS transport or a send on the relay conduit.
`receiveReq` records the `MaxNumberOfMessages` and `VisibilityTimeout`
fields of a `ReceiveMessageInput` (`none` when the field is left unset). -/
inductive Event where
  | receiveReq (maxNumberOfMessages : Int) (visibilityTimeout : Option Int)
  | deleteMsg (receiptHandle : Nat)
  | relaySend (d : Deferral)
deriving DecidableEq, Repr

/-- Whether an event is a send on the relay conduit. -/
def Event.isSend : Event → Bool
  | Event.relaySend _ => true
  | _ => false

/-- Whether an event is a `DeleteMessage` request. -/
def Event.isDelete : Event → Bool
  | Event.deleteMsg _ => true
  | _ => false

/-- Whether an event is a `ReceiveMessage` request. -/
def Event.isReceive : Event → Bool
  | Event.receiveReq _ _ => true
  | _ => false

/-- The `Deferral` built from a message whose `unixtime` attribute parses
(`sqs.go` lines 118-123); `none` when parsing fails. -/
def Message.parse (m : Message) : Option Deferral :=
  m.unixtime.map fun t => ⟨m.projectkey, m.branch, m.buildid, t⟩

/-- The per-message loop shared by `Resubmit` (`sqs.go` lines 110-130) and
`DeferredBuilds` (lines 175-195): for each message, parse `unixtime`; on
failure log and `continue`; otherwise collect the `Deferral` and issue a
`DeleteMessage` for the receipt handle.  Returns the collected deferrals and
the delete requests, both in message order. -/
def resubmitLoop : List Message → List Deferral × List Event
  | [] => ([], [])
  | m :: rest =>
    match m.unixtime with
    | none => resubmitLoop rest
    | some t =>
      let p := resubmitLoop rest
      (⟨m.projectkey, m.branch, m.buildid, t⟩ :: p.1,
        Event.deleteMsg m.receiptHandle :: p.2)

/-- The tail of `Resubmit` after a successful receive (`sqs.go` lines
109-136): the delete requests issued during the loop, then one relay send
per element of the sorted, deduplicated batch, in order. -/
def resubmitEvents (received : List Message) : List Event :=
  (resubmitLoop received).2 ++
    (dedup (sortByTime (resubmitLoop received).1)).map Event.relaySend

/-- `Resubmit` (`sqs.go` lines 90-137): one `ReceiveMessage` request with
`MaxNumberOfMessages` 10 and no visibility timeout; on receive error, log
and return with no further requests; otherwise run the message loop and
relay the sorted, deduplicated batch.  `recv` is the transport's response. -/
def Resubmit (recv : Except String (List Message)) : List Event :=
  Event.receiveReq 10 none ::
    match recv with
    | Except.error _ => []
    | Except.ok ms => resubmitEvents ms

/-- The deferrals sent on the relay conduit during a trace, in order. -/
def relayed (tr : List Event) : List Deferral :=
  tr.filterMap fun e =>
    match e with
    | Event.relaySend d => some d
    | _ => none

/-- The receipt handles of the `DeleteMessage` requests in a trace, in order. -/
def deletesOf (tr : List Event) : List Nat :=
  tr.filterMap fun e =>
    match e with
    | Event.deleteMsg h => some h
    | _ => none

/-- The number of `ReceiveMessage` requests in a trace. -/
def countReceives (tr : List Event) : Nat :=
  tr.countP fun e => e.isReceive

/-- The number of receive rounds computed by `DeferredBuilds`
(`sqs.go` lines 149-153): `reads := n / nMaxMessages` with
`nMaxMessages = 10`, incremented when `n % 10 > 0`. -/
def readsFor (n : Nat) : Nat :=
  n / 10 + (if n % 10 > 0 then 1 else 0)

/-- The paging loop of `DeferredBuilds` (`sqs.go` lines 157-200).  Each
round issues one `ReceiveMessage` request with `MaxNumberOfMessages` 10 and
`VisibilityTimeout` 0; on a receive error it logs and continues with the
next round; on success it runs the shared message loop (parse, collect,
delete) and replaces the accumulator with the sorted, deduplicated
concatenation.  `recv i` is the transport's response to the i-th receive;
the second component is the trace of issued requests. -/
def deferredBuildsLoop (recv : Nat → Except String (List Message)) :
    Nat → Nat → List Deferral → List Event → List Deferral × List Event
  | 0, _, msgs, tr => (msgs, tr)
  | k + 1, i, msgs, tr =>
    match recv i with
    | Except.error _ =>
      deferredBuildsLoop recv k (i + 1) msgs
        (tr ++ [Event.receiveReq 10 (some 0)])
    | Except.ok ms =>
      deferredBuildsLoop recv k (i + 1)
        (dedup (sortByTime (msgs ++ (resubmitLoop ms).1)))
        (tr ++ [Event.receiveReq 10 (some 0)] ++ (resubmitLoop ms).2)

/-- `DeferredBuilds` (`sqs.go` lines 140-202).  `count` is the outcome of
`getVisibleMessagesCount` (the parsed `ApproximateNumberOfMessages`
attribute); on error the wrapped error is returned before any receive or
delete request is issued (`errors.Wrap` renders as message-colon-cause);
otherwise the paging loop runs for `readsFor n` rounds and the accumulated
list is returned with a nil error. -/
def DeferredBuilds (count : Except String Nat)
    (recv : Nat → Except String (List Message)) :
    Except String (List Deferral) × List Event :=
  match count with
  | Except.error e =>
    (Except.error ("error retrieving number of visible messages: " ++ e), [])
  | Except.ok n =>
    let p := deferredBuildsLoop recv (readsFor n) 0 [] []
    (Except.ok p.1, p.2)

/-- The batches successfully received among the first `k` receive rounds
starting at round `i`: a receive error contributes nothing, a successful
receive contributes its message list. -/
def okBatches (recv : Nat → Except String (List Message)) :
    Nat → Nat → List (List Message)
  | _, 0 => []
  | i, k + 1 =>
    match recv i with
    | Except.error _ => okBatches recv (i + 1) k
    | Except.ok ms => ms :: okBatches recv (i + 1) k

/-- The `SendMessageInput` built by `Defer` (`sqs.go` lines 56-79): the
dedup token is the build id, the delay is one second, and the attributes
carry the project key, branch, build id and the current Unix time (written
with a decimal format that `strconv.ParseInt` always re-parses). -/
structure SendMessageInput where
  messageDeduplicationId : String
  delaySeconds : Int
  projectkey : String
  branch : String
  buildid : String
  unixtime : Int
deriving DecidableEq, Repr

/-- The parameters `Defer(projectKey, branch, buildID)` sends, stamped with
the current Unix time `now` (`sqs.go` lines 56-79). -/
def deferInput (projectKey branch buildID : String) (now : Int) :
    SendMessageInput :=
  { messageDeduplicationId := buildID
    delaySeconds := 1
    projectkey := projectKey
    branch := branch
    buildid := buildID
    unixtime := now }

/-- The message the durable queue holds for a sent `SendMessageInput` once
the queue has assigned a receipt handle: the attributes are carried over
verbatim, and the `unixtime` attribute re-parses to the value that was
formatted into it, hence `some`. -/
def enqueue (inp : SendMessageInput) (handle : Nat) : Message :=
  { receiptHandle := handle
    projectkey := inp.projectkey
    branch := inp.branch
    buildid := inp.buildid
    unixtime := some inp.unixtime }

/-- `Defer` (`sqs.go` lines 81-85): under the mutex, a single
`SendMessage` call whose error is returned to the caller unchanged.
`transport inp i` is the outcome the transport would give the i-th
`SendMessage` attempt for input `inp`; the code only ever makes attempt 0. -/
def Defer (transport : SendMessageInput → Nat → Except String Unit)
    (projectKey branch buildID : String) (now : Int) : Except String Unit :=
  transport (deferInput projectKey branch buildID now) 0

/-- Modelled from the spec: the `web/retry` package is not under `src/`
(only its caller in `src/web/storage/aws.go` is).  Spec section 4.3: invoke
the operation; on failure wait per the backoff policy and retry; return
success immediately on any attempt's success; after exhausting the attempts
return the last observed error unchanged.  Backoff delays do not affect the
returned value and are dropped.  `op i` is the outcome of attempt `i`; `k`
counts the attempts remaining after the current one. -/
def retryGo (op : Nat → Except String Unit) (i : Nat) :
    Nat → Except String Unit
  | 0 => op i
  | k + 1 =>
    match op i with
    | Except.ok a => Except.ok a
    | Except.error _ => retryGo op (i + 1) k

/-- Modelled from the spec: `retry.New(n, backoff).Try(work)` as used in
`src/web/storage/aws.go` — up to `n` attempts of `work`, first success
wins, last error surfaced. -/
def retryTry (n : Nat) (op : Nat → Except String Unit) : Except String Unit :=
  retryGo op 0 (n - 1)

/-- `GetBuildsByProject`'s remote query (`src/web/storage/aws.go` lines
37-83): the DynamoDB query is wrapped as `work` and run through
`retry.New(3, retry.DefaultBackoffFunc).Try(work)`; the error is surfaced
only if all three attempts fail.  Only the retry wrapping of the remote
call is claim-relevant, so the model tracks the outcome of the wrapped
call; the conversion of the response items into builds happens after `Try`
returns success and does not touch the network. -/
def getBuildsByProjectCall (query : Nat → Except String Unit) :
    Except String Unit :=
  retryTry 3 query

/-- A transport whose `SendMessage` fails transiently: the first attempt
errors, every later attempt succeeds. -/
def flakySend : SendMessageInput → Nat → Except String Unit := fun _ i =>
  if i = 0 then Except.error "transient" else Except.ok ()

/-- Receive responses used to refute claim C2: round 0 delivers two
messages with key `a/m` at times 1 and 3, round 1 delivers one message
with key `b/m` at time 2. -/
def cexRecv : Nat → Except String (List Message) := fun i =>
  if i = 0 then
    Except.ok [⟨0, "a", "m", "b1", some 1⟩, ⟨1, "a", "m", "b2", some 3⟩]
  else Except.ok [⟨2, "b", "m", "b3", some 2⟩]

/-- The time order on deferrals is total. -/
instance : IsTotal Deferral (fun a b => a.UnixTime ≤ b.UnixTime) :=
  ⟨fun a b => Int.le_total a.UnixTime b.UnixTime⟩

/-- The time order on deferrals is transitive. -/
instance : IsTrans Deferral (fun a b => a.UnixTime ≤ b.UnixTime) :=
  ⟨fun _ _ _ hab hbc => le_trans hab hbc⟩

/-- `Key()` always contains the separator `"/"`, so it is never the empty
string the `dedup` accumulator starts from. -/
theorem Deferral.Key_ne_empty (d : Deferral) : d.Key ≠ "" := by
  intro he
  have hlen : d.Key.length = d.ProjectKey.length + 1 + d.Branch.length := by
    simp [Deferral.Key, String.length_append]
    rfl
  rw [he] at hlen
  simp at hlen
  omega

/-- The dedup loop only ever removes elements: its result is a sublist of
its input. -/
theorem dedupFrom_sublist : ∀ (xs : List Deferral) (last : String),
    List.Sublist (dedupFrom last xs) xs := by
  intro xs
  induction xs with
  | nil => intro last; simp [dedupFrom]
  | cons v rest ih =>
    intro last
    simp only [dedupFrom]
    split
    · exact List.Sublist.cons₂ v (ih v.Key)
    · exact List.Sublist.cons v (ih last)

/-- If the dedup loop keeps a first element, that element's key differs from
the accumulator it was run with. -/
theorem dedupFrom_head_ne : ∀ (xs : List Deferral) (last : String)
    (y : Deferral), (dedupFrom last xs).head? = some y → y.Key ≠ last := by
  intro xs
  induction xs with
  | nil => intro last y h; simp [dedupFrom] at h
  | cons v rest ih =>
    intro last y h
    simp only [dedupFrom] at h
    by_cases hk : v.Key ≠ last
    · rw [if_pos hk] at h
      simp at h
      rw [← h]
      exact hk
    · rw [if_neg hk] at h
      exact ih last y h

/-- Adjacent elements of the dedup loop's output always have distinct keys. -/
theorem dedupFrom_chain : ∀ (xs : List Deferral) (last : String),
    List.Chain' (fun a b => a.Key ≠ b.Key) (dedupFrom last xs) := by
  intro xs
  induction xs with
  | nil => intro last; simp [dedupFrom]
  | cons v rest ih =>
    intro last
    simp only [dedupFrom]
    split
    · rw [List.chain'_cons']
      refine ⟨?_, ih v.Key⟩
      intro y hy
      have := dedupFrom_head_ne rest v.Key y hy
      exact fun hc => this hc.symm
    · exact ih last

/-- A list whose adjacent keys already differ, and whose head key differs
from the accumulator, passes through the dedup loop unchanged. -/
theorem dedupFrom_eq_self : ∀ (ys : List Deferral) (last : String),
    List.Chain' (fun a b => a.Key ≠ b.Key) ys →
    (∀ y, ys.head? = some y → y.Key ≠ last) → dedupFrom last ys = ys := by
  intro ys
  induction ys with
  | nil => intro last _ _; simp [dedupFrom]
  | cons y rest ih =>
    intro last hchain hhead
    have hy : y.Key ≠ last := hhead y rfl
    simp only [dedupFrom, if_pos hy]
    rw [List.chain'_cons'] at hchain
    congr 1
    refine ih y.Key hchain.2 ?_
    intro z hz
    have := hchain.1 z hz
    exact fun hc => this hc.symm

/-- `dedup` is idempotent. -/
theorem dedup_idem (xs : List Deferral) : dedup (dedup xs) = dedup xs := by
  unfold dedup
  exact dedupFrom_eq_self _ "" (dedupFrom_chain xs "") (dedupFrom_head_ne xs "")

/-- The collected deferrals of the message loop are exactly the parses of
the messages whose `unixtime` attribute parsed, in message order. -/
theorem resubmitLoop_fst (ms : List Message) :
    (resubmitLoop ms).1 = ms.filterMap Message.parse := by
  induction ms with
  | nil => simp [resubmitLoop]
  | cons m rest ih =>
    cases hm : m.unixtime with
    | none => simp [resubmitLoop, hm, Message.parse, ih]
    | some t => simp [resubmitLoop, hm, Message.parse, ih]

/-- The requests issued by the message loop are exactly one delete per
successfully parsed message, in message order. -/
theorem resubmitLoop_snd (ms : List Message) :
    (resubmitLoop ms).2 =
      (ms.filter fun m => m.unixtime.isSome).map
        fun m => Event.deleteMsg m.receiptHandle := by
  induction ms with
  | nil => simp [resubmitLoop]
  | cons m rest ih =>
    cases hm : m.unixtime with
    | none => simp [resubmitLoop, hm, List.filter, ih]
    | some t => simp [resubmitLoop, hm, List.filter, ih]

/-- No relay send appears among the message loop's requests. -/
theorem relayed_resubmitLoop (ms : List Message) :
    relayed (resubmitLoop ms).2 = [] := by
  rw [resubmitLoop_snd, relayed, List.filterMap_map]
  simp [Function.comp]

/-- Relaying a list of deferrals and reading the sends back is the
identity. -/
theorem relayed_map_relaySend (l : List Deferral) :
    relayed (l.map Event.relaySend) = l := by
  induction l with
  | nil => rfl
  | cons d rest ih => simp [relayed, List.filterMap_cons] at ih ⊢; exact ih

/-- The deferrals relayed by `Resubmit` on a successful receive are exactly
the sorted, deduplicated parses of the batch. -/
theorem relayed_Resubmit (ms : List Message) :
    relayed (Resubmit (Except.ok ms)) =
      dedup (sortByTime (ms.filterMap Message.parse)) := by
  have h1 : relayed (Resubmit (Except.ok ms)) =
      relayed (resubmitLoop ms).2 ++
        relayed ((dedup (sortByTime (resubmitLoop ms).1)).map Event.relaySend) := by
    simp [Resubmit, resubmitEvents, relayed, List.filterMap_cons,
      List.filterMap_append]
  rw [h1, relayed_resubmitLoop, relayed_map_relaySend, resubmitLoop_fst]
  simp

/-- `sortByTime` sorts ascending by `UnixTime`. -/
theorem sortByTime_sorted (l : List Deferral) :
    List.Sorted (fun a b => a.UnixTime ≤ b.UnixTime) (sortByTime l) :=
  List.sorted_insertionSort _ l

/-- `sortByTime` permutes its input. -/
theorem sortByTime_perm (l : List Deferral) : List.Perm (sortByTime l) l :=
  List.perm_insertionSort _ l

/-- The sorted-then-deduplicated batch is still sorted ascending by
`UnixTime`, since dedup only removes elements. -/
theorem dedup_sortByTime_sorted (l : List Deferral) :
    List.Sorted (fun a b => a.UnixTime ≤ b.UnixTime) (dedup (sortByTime l)) :=
  (sortByTime_sorted l).sublist (dedupFrom_sublist _ "")

/-- A relation that holds of every pair holds pairwise on every list. -/
theorem pairwiseAll {α : Type _} {R : α → α → Prop} (hR : ∀ a b, R a b) :
    ∀ l : List α, List.Pairwise R l := by
  intro l
  induction l with
  | nil => exact List.Pairwise.nil
  | cons a t ih => exact List.Pairwise.cons (fun b _ => hR a b) ih

/-- Reading the delete requests back from a list of deletes gives the
handles. -/
theorem deletesOf_map_deleteMsg (ms : List Message) :
    deletesOf (ms.map fun m => Event.deleteMsg m.receiptHandle) =
      ms.map fun m => m.receiptHandle := by
  induction ms with
  | nil => rfl
  | cons m rest ih => simp [deletesOf, List.filterMap_cons] at ih ⊢; exact ih

/-- Relay sends contain no delete requests. -/
theorem deletesOf_map_relaySend (l : List Deferral) :
    deletesOf (l.map Event.relaySend) = [] := by
  induction l with
  | nil => rfl
  | cons d rest _ => simp [deletesOf, List.filterMap_cons]

/-- The delete requests of `Resubmit` on a successful receive are exactly
the handles of the successfully parsed messages, in message order. -/
theorem deletesOf_Resubmit (ms : List Message) :
    deletesOf (Resubmit (Except.ok ms)) =
      (ms.filter fun m => m.unixtime.isSome).map fun m => m.receiptHandle := by
  have h1 : deletesOf (Resubmit (Except.ok ms)) =
      deletesOf (resubmitLoop ms).2 ++
        deletesOf ((dedup (sortByTime (resubmitLoop ms).1)).map Event.relaySend) := by
    simp [Resubmit, resubmitEvents, deletesOf, List.filterMap_cons,
      List.filterMap_append]
  rw [h1, deletesOf_map_relaySend, resubmitLoop_snd, deletesOf_map_deleteMsg]
  simp

/-- The message loop issues no `ReceiveMessage` requests. -/
theorem countReceives_resubmitLoop (ms : List Message) :
    countReceives (resubmitLoop ms).2 = 0 := by
  rw [resubmitLoop_snd, countReceives, List.countP_map]
  simp [Function.comp, Event.isReceive]

/-- `countReceives` distributes over list append. -/
theorem countReceives_append (a b : List Event) :
    countReceives (a ++ b) = countReceives a + countReceives b := by
  simp [countReceives, List.countP_append]

/-- Each round of the paging loop issues exactly one `ReceiveMessage`
request, so `k` rounds issue `k` on top of the requests already traced. -/
theorem countReceives_deferredBuildsLoop
    (recv : Nat → Except String (List Message)) :
    ∀ (k i : Nat) (msgs : List Deferral) (tr : List Event),
      countReceives (deferredBuildsLoop recv k i msgs tr).2 =
        countReceives tr + k := by
  intro k
  induction k with
  | zero => intro i msgs tr; simp [deferredBuildsLoop]
  | succ k ih =>
    intro i msgs tr
    simp only [deferredBuildsLoop]
    cases recv i with
    | error e =>
      rw [ih, countReceives_append]
      have h1 : countReceives [Event.receiveReq 10 (some 0)] = 1 := rfl
      rw [h1]
      omega
    | ok ms =>
      rw [ih, countReceives_append, countReceives_append,
        countReceives_resubmitLoop ms]
      have h1 : countReceives [Event.receiveReq 10 (some 0)] = 1 := rfl
      rw [h1]
      omega

/-- Every `ReceiveMessage` request the paging loop adds to the trace asks
for at most 10 messages with a zero visibility timeout. -/
theorem deferredBuildsLoop_receiveShape
    (recv : Nat → Except String (List Message)) :
    ∀ (k i : Nat) (msgs : List Deferral) (tr : List Event),
      (∀ mx vt, Event.receiveReq mx vt ∈ tr → mx = 10 ∧ vt = some 0) →
      ∀ mx vt, Event.receiveReq mx vt ∈ (deferredBuildsLoop recv k i msgs tr).2 →
        mx = 10 ∧ vt = some 0 := by
  intro k
  induction k with
  | zero => intro i msgs tr htr; simpa [deferredBuildsLoop] using htr
  | succ k ih =>
    intro i msgs tr htr mx vt hmem
    simp only [deferredBuildsLoop] at hmem
    cases hr : recv i with
    | error e =>
      rw [hr] at hmem
      refine ih (i + 1) msgs _ ?_ mx vt hmem
      intro mx2 vt2 h2
      rcases List.mem_append.mp h2 with h3 | h3
      · exact htr mx2 vt2 h3
      · simp at h3
        exact ⟨h3.1, h3.2⟩
    | ok ms =>
      rw [hr] at hmem
      refine ih (i + 1) _ _ ?_ mx vt hmem
      intro mx2 vt2 h2
      rcases List.mem_append.mp h2 with h3 | h3
      · rcases List.mem_append.mp h3 with h4 | h4
        · exact htr mx2 vt2 h4
        · simp at h4
          exact ⟨h4.1, h4.2⟩
      · rw [resubmitLoop_snd] at h3
        simp at h3

/-- The accumulator of the paging loop is the left fold of
sort-then-dedup over the successfully received batches. -/
theorem deferredBuildsLoop_fst (recv : Nat → Except String (List Message)) :
    ∀ (k i : Nat) (msgs : List Deferral) (tr : List Event),
      (deferredBuildsLoop recv k i msgs tr).1 =
        (okBatches recv i k).foldl
          (fun acc ms => dedup (sortByTime (acc ++ ms.filterMap Message.parse)))
          msgs := by
  intro k
  induction k with
  | zero => intro i msgs tr; simp [deferredBuildsLoop, okBatches]
  | succ k ih =>
    intro i msgs tr
    simp only [deferredBuildsLoop, okBatches]
    cases recv i with
    | error e => exact ih (i + 1) msgs _
    | ok ms =>
      rw [ih]
      simp [resubmitLoop_fst]

/-- The round count of `DeferredBuilds` is the ceiling of `n / 10`. -/
theorem readsFor_eq (n : Nat) : readsFor n = (n + 9) / 10 := by
  unfold readsFor
  split <;> omega

/-- Claim C1: for every list of Deferrals sorted ascending by UnixTime, the
dedup pass keeps an item exactly when its Key differs from the previous kept
item's Key, so the output has no two adjacent elements with equal Key, while
non-adjacent duplicates survive.  The spec's two examples are included: the
input with keys a, a, b at times 5, 1, 3 sorts to times 1, 3, 5 and dedups
to itself, while two adjacent a-keyed items dedup to the first alone. -/
theorem dedup_adjacent_only_with_examples :
    (∀ xs : List Deferral,
        List.Sorted (fun a b => a.UnixTime ≤ b.UnixTime) xs →
        List.Chain' (fun a b => a.Key ≠ b.Key) (dedup xs)) ∧
    sortByTime [⟨"a", "m", "b1", 5⟩, ⟨"a", "m", "b2", 1⟩, ⟨"b", "m", "b3", 3⟩] =
      [⟨"a", "m", "b2", 1⟩, ⟨"b", "m", "b3", 3⟩, ⟨"a", "m", "b1", 5⟩] ∧
    dedup [⟨"a", "m", "b2", 1⟩, ⟨"b", "m", "b3", 3⟩, ⟨"a", "m", "b1", 5⟩] =
      [⟨"a", "m", "b2", 1⟩, ⟨"b", "m", "b3", 3⟩, ⟨"a", "m", "b1", 5⟩] ∧
    dedup (sortByTime [⟨"a", "m", "b1", 1⟩, ⟨"a", "m", "b2", 2⟩]) =
      [⟨"a", "m", "b1", 1⟩] := by
  refine ⟨fun xs _ => dedupFrom_chain xs "", ?_, ?_, ?_⟩ <;> decide

/-- Witness for claim C1: the chain property applied to a concrete sorted
list, with the sortedness hypothesis discharged by evaluation. -/
theorem dedup_adjacent_only_witness :
    List.Chain' (fun a b => a.Key ≠ b.Key)
      (dedup [⟨"p", "x", "i1", 1⟩, ⟨"p", "x", "i2", 2⟩, ⟨"q", "y", "i3", 3⟩]) :=
  dedup_adjacent_only_with_examples.1
    [⟨"p", "x", "i1", 1⟩, ⟨"p", "x", "i2", 2⟩, ⟨"q", "y", "i3", 3⟩] (by decide)

/-- Claim C9: `dedup` is idempotent, and its output is a subsequence of its
input (so input order is preserved). -/
theorem dedup_idempotent_and_sublist :
    (∀ xs : List Deferral, dedup (dedup xs) = dedup xs) ∧
    ∀ xs : List Deferral, List.Sublist (dedup xs) xs :=
  ⟨dedup_idem, fun xs => dedupFrom_sublist xs ""⟩

/-- Claim C4: within one `Resubmit` invocation the deferrals sent to the
relay conduit are in ascending `UnixTime` order — for every pair of relayed
deferrals, the earlier one's `UnixTime` is at most the later one's. -/
theorem resubmit_relays_ascending (recv : Except String (List Message)) :
    List.Pairwise (fun a b => a.UnixTime ≤ b.UnixTime)
      (relayed (Resubmit recv)) := by
  cases recv with
  | error e =>
    show List.Pairwise _ (relayed [Event.receiveReq 10 none])
    exact List.Pairwise.nil
  | ok ms =>
    rw [relayed_Resubmit]
    exact dedup_sortByTime_sorted _

/-- Claim C5: starting from an empty queue, `Defer(projectKey, branch,
buildID)` leaves exactly one message on the queue; a `Resubmit` that
receives it sends exactly one Deferral on the relay conduit, carrying the
same `ProjectKey`, `Branch` and `BuildID` that were passed to `Defer`
(and the `UnixTime` stamped at `Defer` time). -/
theorem defer_then_resubmit_single (projectKey branch buildID : String)
    (now : Int) (handle : Nat) :
    relayed (Resubmit (Except.ok
        [enqueue (deferInput projectKey branch buildID now) handle])) =
      [⟨projectKey, branch, buildID, now⟩] := by
  rw [relayed_Resubmit]
  have hne := Deferral.Key_ne_empty
    (⟨projectKey, branch, buildID, now⟩ : Deferral)
  simp [enqueue, deferInput, Message.parse, sortByTime, List.insertionSort,
    List.orderedInsert, dedup, dedupFrom, hne]

/-- Claim C6: within one `Resubmit` invocation, every successfully parsed
message has its delete request issued before any relay send occurs (first
conjunct: no send precedes a delete in the trace; second conjunct: the
deletes are exactly one per parsed message, issued regardless of the later
sends), and no queue message is delivered to the relay conduit more than
once (third conjunct: each deferral value is relayed at most as often as it
was parsed). -/
theorem resubmit_deletes_before_sends (ms : List Message) :
    List.Pairwise (fun e1 e2 => ¬(e1.isSend = true ∧ e2.isDelete = true))
        (Resubmit (Except.ok ms)) ∧
    deletesOf (Resubmit (Except.ok ms)) =
      (ms.filter fun m => m.unixtime.isSome).map (fun m => m.receiptHandle) ∧
    ∀ d : Deferral,
      (relayed (Resubmit (Except.ok ms))).count d ≤
        (ms.filterMap Message.parse).count d := by
  refine ⟨?_, deletesOf_Resubmit ms, ?_⟩
  · show List.Pairwise _
      (Event.receiveReq 10 none :: resubmitEvents ms)
    rw [List.pairwise_cons]
    constructor
    · intro b _ hc
      exact absurd hc.1 (by simp [Event.isSend])
    · rw [resubmitEvents, List.pairwise_append, resubmitLoop_snd]
      refine ⟨?_, ?_, ?_⟩
      · rw [List.pairwise_map]
        refine pairwiseAll ?_ _
        intro a b hc
        exact absurd hc.1 (by simp [Event.isSend])
      · rw [List.pairwise_map]
        refine pairwiseAll ?_ _
        intro a b hc
        exact absurd hc.2 (by simp [Event.isDelete])
      · intro a ha b hb hc
        rcases List.mem_map.mp ha with ⟨m, _, hm⟩
        rw [← hm] at hc
        exact absurd hc.1 (by simp [Event.isSend])
  · intro d
    rw [relayed_Resubmit]
    have h1 : List.Sublist (dedup (sortByTime (ms.filterMap Message.parse)))
        (sortByTime (ms.filterMap Message.parse)) := dedupFrom_sublist _ ""
    have h2 := sortByTime_perm (ms.filterMap Message.parse)
    calc (dedup (sortByTime (ms.filterMap Message.parse))).count d
        ≤ (sortByTime (ms.filterMap Message.parse)).count d :=
          h1.count_le d
      _ = (ms.filterMap Message.parse).count d := h2.count_eq d

/-- Claim C7: a received message whose `unixtime` attribute fails to parse
is skipped — it is not deleted, nothing is relayed for it, and the rest of
the batch is processed exactly as if the message were absent: the whole
`Resubmit` trace coincides with the trace for the batch without it. -/
theorem resubmit_skips_malformed (pre post : List Message) (m : Message)
    (hm : m.unixtime = none) :
    Resubmit (Except.ok (pre ++ m :: post)) =
      Resubmit (Except.ok (pre ++ post)) := by
  have hloop : resubmitLoop (pre ++ m :: post) = resubmitLoop (pre ++ post) := by
    induction pre with
    | nil => simp [resubmitLoop, hm]
    | cons q rest ih => cases hq : q.unixtime <;> simp [resubmitLoop, hq, ih]
  simp [Resubmit, resubmitEvents, hloop]

/-- Witness for claim C7: a concrete malformed message between two parsable
ones is invisible to the `Resubmit` trace. -/
theorem resubmit_skips_malformed_witness :
    Resubmit (Except.ok
        [⟨0, "p", "x", "i1", some 1⟩, ⟨1, "q", "y", "bad", none⟩,
          ⟨2, "r", "z", "i3", some 3⟩]) =
      Resubmit (Except.ok
        [⟨0, "p", "x", "i1", some 1⟩, ⟨2, "r", "z", "i3", some 3⟩]) :=
  resubmit_skips_malformed [⟨0, "p", "x", "i1", some 1⟩]
    [⟨2, "r", "z", "i3", some 3⟩] ⟨1, "q", "y", "bad", none⟩ rfl

/-- Claim C8: for every approximate visible message count `n`,
`DeferredBuilds` issues exactly `⌈n / 10⌉` receive requests (in `Nat`
arithmetic, `(n + 9) / 10`), and every receive request it issues asks for
at most 10 messages with a visibility timeout of zero. -/
theorem deferredBuilds_paging (n : Nat)
    (recv : Nat → Except String (List Message)) :
    countReceives (DeferredBuilds (Except.ok n) recv).2 = (n + 9) / 10 ∧
    ∀ mx vt, Event.receiveReq mx vt ∈ (DeferredBuilds (Except.ok n) recv).2 →
      mx = 10 ∧ vt = some 0 := by
  constructor
  · show countReceives (deferredBuildsLoop recv (readsFor n) 0 [] []).2 = _
    rw [countReceives_deferredBuildsLoop, readsFor_eq]
    simp [countReceives]
  · intro mx vt hmem
    exact deferredBuildsLoop_receiveShape recv (readsFor n) 0 [] []
      (by intro mx2 vt2 h2; simp at h2) mx vt hmem

/-- Witness for claim C8: with a depth of one the single receive request
issued is the one with batch size 10 and zero visibility timeout. -/
theorem deferredBuilds_paging_witness :
    countReceives
        (DeferredBuilds (Except.ok 1) (fun _ => Except.ok [])).2 = 1 ∧
    (10 : Int) = 10 ∧ (some 0 : Option Int) = some 0 := by
  have h := deferredBuilds_paging 1 (fun _ => Except.ok [])
  exact ⟨h.1, h.2 10 (some 0) (by decide)⟩

/-- Claim C10: if retrieving the approximate visible message count fails,
`DeferredBuilds` returns the wrapped error without issuing any receive or
delete request (the trace is empty); if the count is zero it likewise
issues no requests and returns the empty list with no error. -/
theorem deferredBuilds_error_and_zero_paths (e : String)
    (recv : Nat → Except String (List Message)) :
    DeferredBuilds (Except.error e) recv =
      (Except.error ("error retrieving number of visible messages: " ++ e),
        []) ∧
    DeferredBuilds (Except.ok 0) recv = (Except.ok [], []) :=
  ⟨rfl, rfl⟩

/-- Counterexample to claim C2: with a queue depth of 11 and two batches —
round 0 delivering keys a/m at times 1 and 3, round 1 delivering key b/m at
time 2 — `DeferredBuilds` returns two deferrals, while a single final
sort-plus-dedup pass over all parsed messages keeps all three: the
intermediate dedup of round 0 drops the time-3 duplicate that the time-2
message of round 1 would have separated. -/
theorem deferredBuilds_not_one_final_pass :
    (DeferredBuilds (Except.ok 11) cexRecv).1 =
      Except.ok [⟨"a", "m", "b1", 1⟩, ⟨"b", "m", "b3", 2⟩] ∧
    dedup (sortByTime
        (([⟨0, "a", "m", "b1", some 1⟩, ⟨1, "a", "m", "b2", some 3⟩,
            ⟨2, "b", "m", "b3", some 2⟩] : List Message).filterMap
          Message.parse)) =
      [⟨"a", "m", "b1", 1⟩, ⟨"b", "m", "b3", 2⟩, ⟨"a", "m", "b2", 3⟩] ∧
    ([⟨"a", "m", "b1", 1⟩, ⟨"b", "m", "b3", 2⟩] : List Deferral) ≠
      [⟨"a", "m", "b1", 1⟩, ⟨"b", "m", "b3", 2⟩, ⟨"a", "m", "b2", 3⟩] :=
  ⟨rfl, rfl, by decide⟩

/-- Claim C2 as amended: the list `DeferredBuilds` returns is the left fold
that re-applies sort-plus-adjacent-dedup to the accumulated list after each
successfully received batch — not, in general, a single final
sort-plus-dedup over all parsed messages. -/
theorem deferredBuilds_fold_characterisation (n : Nat)
    (recv : Nat → Except String (List Message)) :
    (DeferredBuilds (Except.ok n) recv).1 =
      Except.ok ((okBatches recv 0 (readsFor n)).foldl
        (fun acc ms => dedup (sortByTime (acc ++ ms.filterMap Message.parse)))
        []) := by
  show Except.ok (deferredBuildsLoop recv (readsFor n) 0 [] []).1 = _
  rw [deferredBuildsLoop_fst]

/-- Counterexample to claim C3: `Defer` surfaces a transient first-attempt
`SendMessage` failure directly to the caller, whereas the Retry/Backoff
helper (3 attempts, as the Storage Service uses it) would have masked it —
so the `SendMessage` call inside `Defer` is not wrapped by the retry
helper. -/
theorem defer_not_retried :
    Defer flakySend "proj" "master" "build1" 0 = Except.error "transient" ∧
    retryTry 3 (flakySend (deferInput "proj" "master" "build1" 0)) =
      Except.ok () :=
  ⟨rfl, rfl⟩

/-- Claim C3 as amended: the Storage Service's `GetBuildsByProject` wraps
its remote query in the Retry/Backoff helper with three attempts — a
failure followed by a success is masked, and an error is surfaced only when
all three attempts fail — but the Deferral Queue Service does not: `Defer`
issues exactly one `SendMessage` attempt and returns its outcome to the
caller unchanged, with no local retry. -/
theorem defer_single_attempt_storage_retried :
    (∀ (transport : SendMessageInput → Nat → Except String Unit)
        (pk b bid : String) (now : Int),
        Defer transport pk b bid now = transport (deferInput pk b bid now) 0) ∧
    (∀ (query : Nat → Except String Unit) (e0 : String),
        query 0 = Except.error e0 → query 1 = Except.ok () →
        getBuildsByProjectCall query = Except.ok ()) ∧
    (∀ (query : Nat → Except String Unit) (e0 e1 e2 : String),
        query 0 = Except.error e0 → query 1 = Except.error e1 →
        query 2 = Except.error e2 →
        getBuildsByProjectCall query = Except.error e2) := by
  refine ⟨fun _ _ _ _ _ => rfl, ?_, ?_⟩
  · intro query e0 h0 h1
    simp [getBuildsByProjectCall, retryTry, retryGo, h0, h1]
  · intro query e0 e1 e2 h0 h1 h2
    simp [getBuildsByProjectCall, retryTry, retryGo, h0, h1, h2]

/-- Witness for the amended claim C3: concrete query outcomes exercising
both the masked-failure and the exhaustion paths, and a concrete `Defer`. -/
theorem defer_single_attempt_storage_retried_witness :
    Defer flakySend "p" "m" "b" 7 = flakySend (deferInput "p" "m" "b" 7) 0 ∧
    getBuildsByProjectCall
        (fun i => if i = 0 then Except.error "x" else Except.ok ()) =
      Except.ok () ∧
    getBuildsByProjectCall (fun _ => Except.error "y") =
      Except.error "y" :=
  ⟨defer_single_attempt_storage_retried.1 flakySend "p" "m" "b" 7,
    defer_single_attempt_storage_retried.2.1
      (fun i => if i = 0 then Except.error "x" else Except.ok ()) "x" rfl rfl,
    defer_single_attempt_storage_retried.2.2
      (fun _ => Except.error "y") "y" "y" "y" rfl rfl rfl⟩

end Aftomato
